import Mathlib

/-!
Verification of the IP-Blocklist-Validator pipeline (src/main.py).

The embedding models the pure core of the program: CPython string methods
(split, rsplit, partition, strip), the parts of the CPython `ipaddress`
module that the program calls (`ip_address`, `ip_network(..., strict=False)`
and the canonical string forms of addresses and networks), and the
program's own functions `validate_ip_addresses`, `group_ips_into_subnets`,
`sort_entries_by_cidr`, `fetch_whois_info`, `write_to_output_file`,
`load_existing_output_file_entries`, and the publish decision in `main`.

Python sets are modelled as `Finset`, Python dicts as insertion-ordered
association lists, Python exceptions as `Except String`.  Zone-suffixed
IPv6 addresses (a percent sign and scope id) are outside the modelled
domain; no input considered here contains one.
-/

deriving instance DecidableEq for Except

namespace Blocklist

/-! ### CPython str helpers (ASCII domain) -/

/-- Python `s.split(sep)` for a single-character separator, on char lists. -/
def splitSep (sep : Char) : List Char → List (List Char)
  | [] => [[]]
  | c :: rest =>
    if c = sep then [] :: splitSep sep rest
    else
      match splitSep sep rest with
      | [] => [[c]]
      | h :: t => (c :: h) :: t

/-- Python `s.split(sep)` for a single-character separator. -/
def pySplit (sep : Char) (s : String) : List String :=
  (splitSep sep s.toList).map (fun l => String.mk l)

/-- Python `s.partition(sep)` restricted to the pair
(head, remainder after the first separator); when the separator is absent
the remainder is empty, exactly as an absent third component. -/
def pyPartition (sep : Char) (s : String) : String × String :=
  match pySplit sep s with
  | [] => (s, "")
  | h :: t => (h, String.intercalate (String.mk [sep]) t)

/-- Python `s.rsplit(".", 1)[0]`: everything before the last dot, or the
whole string when there is no dot. -/
def pyRsplitDotHead (s : String) : String :=
  match pySplit '.' s with
  | [] => s
  | [_] => s
  | parts => String.intercalate "." parts.dropLast

/-- Python `s.split("/")[0]`. -/
def pySplitSlashHead (s : String) : String :=
  match pySplit '/' s with
  | [] => s
  | h :: _ => h

def isDecDigit (c : Char) : Bool := decide ('0' ≤ c ∧ c ≤ '9')

def decDigitVal (c : Char) : Nat := c.toNat - 48

def decValue (l : List Char) : Nat := l.foldl (fun a c => a * 10 + decDigitVal c) 0

/-- Python `s.isascii() and s.isdigit()` (false on the empty string). -/
def isAsciiDigits (l : List Char) : Bool := !l.isEmpty && l.all isDecDigit

def isHexDigitChar (c : Char) : Bool :=
  isDecDigit c || decide ('a' ≤ c ∧ c ≤ 'f') || decide ('A' ≤ c ∧ c ≤ 'F')

def hexDigitVal (c : Char) : Nat :=
  if isDecDigit c then c.toNat - 48
  else if decide ('a' ≤ c ∧ c ≤ 'f') then c.toNat - 87
  else c.toNat - 55

def hexValue (l : List Char) : Nat := l.foldl (fun a c => a * 16 + hexDigitVal c) 0

/-- Lowercase minimal hex rendering, CPython `'%x' % n`. -/
def hexChars (n : Nat) : List Char := Nat.toDigits 16 n

/-! ### CPython ipaddress: IPv4 parsing and rendering -/

/-- CPython `IPv4Address._parse_octet`: 1 to 3 ASCII decimal digits, no
leading zero, value at most 255. -/
def v4ParseOctet (l : List Char) : Except String Nat :=
  if l.isEmpty then .error "Empty octet not permitted"
  else if !(l.all isDecDigit) then .error "Only decimal digits permitted"
  else if l.length > 3 then .error "At most 3 characters permitted"
  else
    match l with
    | '0' :: _ :: _ => .error "Leading zeros are not permitted"
    | _ =>
      let v := decValue l
      if v > 255 then .error "Octet not permitted, above 255" else .ok v

/-- CPython `IPv4Address._ip_int_from_string`: exactly 4 dot-separated
octets. -/
def parseIPv4 (s : String) : Except String Nat :=
  let octets := splitSep '.' s.toList
  if octets.length = 4 then
    octets.foldlM (fun acc o => (v4ParseOctet o).map (fun v => acc * 256 + v)) 0
  else .error "Expected 4 octets"

/-- CPython `str(IPv4Address)`: dotted quad. -/
def renderIPv4 (v : Nat) : String :=
  String.intercalate "."
    (([(v >>> 24) &&& 255, (v >>> 16) &&& 255, (v >>> 8) &&& 255, v &&& 255]).map Nat.repr)

/-! ### CPython ipaddress: IPv6 parsing and rendering -/

/-- CPython `IPv6Address._parse_hextet`: at most 4 hex digits, nonempty
(CPython reaches `int("", 16)` which raises). -/
def v6ParseHextet (l : List Char) : Except String Nat :=
  if !(l.all isHexDigitChar) then .error "Only hex digits permitted"
  else if l.length > 4 then .error "At most 4 characters permitted"
  else if l.isEmpty then .error "invalid literal for int with base 16"
  else .ok (hexValue l)

def v6FoldHextets (parts : List (List Char)) (init : Nat) : Except String Nat :=
  parts.foldlM (fun acc p => (v6ParseHextet p).map (fun v => acc * 65536 + v)) init

/-- Value accumulation of CPython `IPv6Address._ip_int_from_string` once
the double-colon position is resolved: `hi` parts, `skipped` zero groups,
`lo` trailing parts. -/
def v6Assemble (parts : List (List Char)) (hi lo skipped : Nat) : Except String Nat :=
  match v6FoldHextets (parts.take hi) 0 with
  | .error e => .error e
  | .ok hiVal => v6FoldHextets (parts.drop (parts.length - lo)) (hiVal * 65536 ^ skipped)

/-- CPython `IPv6Address._ip_int_from_string`.  An embedded dotted-quad
final part is converted to two hex groups before the main scan, exactly as
CPython does.  Zone ids (percent sign) are not modelled. -/
def parseIPv6 (s : String) : Except String Nat :=
  let parts := splitSep ':' s.toList
  if parts.length < 3 then .error "At least 3 parts expected"
  else
    let partsE : Except String (List (List Char)) :=
      match parts.getLast? with
      | some last =>
        if last.contains '.' then
          (parseIPv4 (String.mk last)).map (fun v =>
            parts.dropLast ++ [hexChars ((v >>> 16) &&& 65535), hexChars (v &&& 65535)])
        else .ok parts
      | none => .ok parts
    match partsE with
    | .error e => .error e
    | .ok parts =>
      if parts.length > 9 then .error "At most 8 colons permitted"
      else
        let emptyIdx := (List.range parts.length).filter
          (fun i => decide (1 ≤ i) && decide (i + 1 < parts.length) && (parts.getD i [' ']).isEmpty)
        match emptyIdx with
        | [] =>
          if parts.length ≠ 8 then .error "Exactly 8 parts expected without double colon"
          else if (parts.getD 0 [' ']).isEmpty then
            .error "Leading colon only permitted as part of a double colon"
          else if (parts.getLast?.getD [' ']).isEmpty then
            .error "Trailing colon only permitted as part of a double colon"
          else v6Assemble parts 8 0 0
        | i :: restIdx =>
          if !restIdx.isEmpty then .error "At most one double colon permitted"
          else
            let hiE : Except String Nat :=
              if (parts.getD 0 [' ']).isEmpty then
                if i - 1 ≠ 0 then .error "Leading colon only permitted as part of a double colon"
                else .ok 0
              else .ok i
            let loE : Except String Nat :=
              if (parts.getLast?.getD [' ']).isEmpty then
                if parts.length - i - 1 - 1 ≠ 0 then
                  .error "Trailing colon only permitted as part of a double colon"
                else .ok 0
              else .ok (parts.length - i - 1)
            match hiE, loE with
            | .error e, _ => .error e
            | _, .error e => .error e
            | .ok hi, .ok lo =>
              if 8 ≤ hi + lo then .error "Expected at most 8 other parts with a double colon"
              else v6Assemble parts hi lo (8 - (hi + lo))

/-- The eight 16-bit groups of an IPv6 value, lowercase minimal hex. -/
def v6Hextets (v : Nat) : List String :=
  (List.range 8).map (fun i => String.mk (hexChars ((v >>> (16 * (7 - i))) &&& 65535)))

/-- Scanner state for the longest run of zero groups
(CPython `_compress_hextets`). -/
structure ZrState where
  bestStart : Nat
  bestLen : Nat
  curStart : Nat
  curLen : Nat
  idx : Nat
deriving DecidableEq

def zrStep (st : ZrState) (h : String) : ZrState :=
  if h = "0" then
    let curStart := if st.curLen = 0 then st.idx else st.curStart
    let curLen := st.curLen + 1
    if curLen > st.bestLen then ⟨curStart, curLen, curStart, curLen, st.idx + 1⟩
    else ⟨st.bestStart, st.bestLen, curStart, curLen, st.idx + 1⟩
  else ⟨st.bestStart, st.bestLen, 0, 0, st.idx + 1⟩

/-- CPython `IPv6Address._compress_hextets`: replace the longest run (of
length at least 2) of zero groups by an empty group, doubling an edge
marker so that joining with colons produces the double colon. -/
def compressHextets (hs : List String) : List String :=
  let st := hs.foldl zrStep ⟨0, 0, 0, 0, 0⟩
  if st.bestLen > 1 then
    let s := st.bestStart
    let e := st.bestStart + st.bestLen
    let hs1 := if e = hs.length then hs ++ [""] else hs
    let hs2 := hs1.take s ++ [""] ++ hs1.drop e
    if s = 0 then "" :: hs2 else hs2
  else hs

/-- CPython `str(IPv6Address)` (RFC 5952 compression as CPython does it). -/
def renderIPv6 (v : Nat) : String :=
  String.intercalate ":" (compressHextets (v6Hextets v))

/-! ### CPython ipaddress: networks -/

inductive IPVersion where
  | v4
  | v6
deriving DecidableEq

/-- A parsed network: version, (masked) network address value, prefix
length.  CPython network equality compares exactly these. -/
structure IPNet where
  version : IPVersion
  addr : Nat
  prefixlen : Nat
deriving DecidableEq

/-- CPython `_prefix_from_prefix_string`: ASCII decimal digits, value up
to the maximum prefix length. -/
def prefixFromPrefixString (maxLen : Nat) (l : List Char) : Except String Nat :=
  if isAsciiDigits l then
    let p := decValue l
    if p ≤ maxLen then .ok p else .error "netmask value out of range"
  else .error "netmask value not a decimal number"

def countRZB : Nat → Nat → Nat
  | _, 0 => 0
  | v, fuel + 1 => if v % 2 = 1 then 0 else 1 + countRZB (v / 2) fuel

/-- CPython `_count_righthand_zero_bits`. -/
def countRighthandZeroBits (v bits : Nat) : Nat :=
  if v = 0 then bits else min bits (countRZB v bits)

/-- CPython `_prefix_from_ip_int`: accept only an all-ones-then-all-zeroes
bit pattern. -/
def prefixFromIpInt (maxLen : Nat) (v : Nat) : Except String Nat :=
  let tz := countRighthandZeroBits v maxLen
  let p := maxLen - tz
  if v >>> tz = 2 ^ p - 1 then .ok p else .error "netmask pattern mixes zeroes and ones"

/-- CPython `IPv4Network._make_netmask` for a string argument: a decimal
prefix length, else a dotted netmask, else a dotted hostmask. -/
def v4MakeNetmask (l : List Char) : Except String Nat :=
  match prefixFromPrefixString 32 l with
  | .ok p => .ok p
  | .error _ =>
    match parseIPv4 (String.mk l) with
    | .error _ => .error "invalid netmask"
    | .ok v =>
      match prefixFromIpInt 32 v with
      | .ok p => .ok p
      | .error _ => prefixFromIpInt 32 (v ^^^ (2 ^ 32 - 1))

/-- CPython `IPv6Network._make_netmask` for a string argument: decimal
prefix length only. -/
def v6MakeNetmask (l : List Char) : Except String Nat :=
  prefixFromPrefixString 128 l

def v4Mask (p : Nat) : Nat := 2 ^ 32 - 2 ^ (32 - p)

def v6Mask (p : Nat) : Nat := 2 ^ 128 - 2 ^ (128 - p)

/-- CPython `IPv4Network(s, strict=False)`: split at the first slash (an
absent or empty prefix part defaults to 32), parse, mask the host bits. -/
def v4Network (s : String) : Except String IPNet :=
  let ap := pyPartition '/' s
  match parseIPv4 ap.1 with
  | .error e => .error e
  | .ok a =>
    match (if ap.2 = "" then .ok 32 else v4MakeNetmask ap.2.toList) with
    | .error e => .error e
    | .ok p => .ok ⟨IPVersion.v4, a &&& v4Mask p, p⟩

/-- CPython `IPv6Network(s, strict=False)`. -/
def v6Network (s : String) : Except String IPNet :=
  let ap := pyPartition '/' s
  match parseIPv6 ap.1 with
  | .error e => .error e
  | .ok a =>
    match (if ap.2 = "" then .ok 128 else v6MakeNetmask ap.2.toList) with
    | .error e => .error e
    | .ok p => .ok ⟨IPVersion.v6, a &&& v6Mask p, p⟩

/-- CPython `ipaddress.ip_network(s, strict=False)`: IPv4 first, IPv6
second, ValueError when both fail. -/
def ip_network (s : String) : Except String IPNet :=
  match v4Network s with
  | .ok n => .ok n
  | .error _ =>
    match v6Network s with
    | .ok n => .ok n
    | .error _ => .error "does not appear to be an IPv4 or IPv6 network"

/-- CPython `ipaddress.ip_address(s)`. -/
def ip_address (s : String) : Except String (IPVersion × Nat) :=
  match parseIPv4 s with
  | .ok v => .ok (IPVersion.v4, v)
  | .error _ =>
    match parseIPv6 s with
    | .ok v => .ok (IPVersion.v6, v)
    | .error _ => .error "does not appear to be an IPv4 or IPv6 address"

/-- `str(network.network_address)`. -/
def addrStr (n : IPNet) : String :=
  match n.version with
  | .v4 => renderIPv4 n.addr
  | .v6 => renderIPv6 n.addr

/-- `str(network)`. -/
def netStr (n : IPNet) : String := addrStr n ++ "/" ++ Nat.repr n.prefixlen

/-- `str(network.network_address).rsplit(".", 1)[0]` — the grouping key of
`group_ips_into_subnets`. -/
def netGroupKey (n : IPNet) : String := pyRsplitDotHead (addrStr n)

/-! ### src/main.py: validate_ip_addresses -/

/-- `validate_ip_addresses` (src/main.py lines 184-204): keep a line when
`ipaddress.ip_address(ip.split("/")[0])` does not raise.  Only the part
before the first slash is checked; the line itself is kept unchanged. -/
def validate_ip_addresses (addresses : List String) : List String :=
  addresses.filter (fun ip => (ip_address (pySplitSlashHead ip)).toOption.isSome)

/-! ### src/main.py: group_ips_into_subnets -/

/-- State of the first loop of `group_ips_into_subnets`: the insertion-
ordered dict from first-three-octets key to the list of /32 networks, the
set of explicit subnets, and the set of individual /32 networks.  The two
Python sets are carried as duplicate-free lists in insertion order; every
operation performed on them (membership, element-wise deletion, final
conversion to a set of strings) is independent of that order. -/
structure GroupState where
  ipDict : List (String × List IPNet)
  existingSubnets : List IPNet
  individualIps : List IPNet

/-- Python `set.add`. -/
def setAdd (l : List IPNet) (n : IPNet) : List IPNet :=
  if l.contains n then l else l ++ [n]

/-- `ip_dict[key].append(network)` on a `defaultdict(list)`. -/
def dictAppend (d : List (String × List IPNet)) (k : String) (n : IPNet) :
    List (String × List IPNet) :=
  match d with
  | [] => [(k, [n])]
  | (k1, vs) :: rest =>
    if k1 = k then (k1, vs ++ [n]) :: rest else (k1, vs) :: dictAppend rest k n

/-- One iteration of the first loop of `group_ips_into_subnets`
(src/main.py lines 221-230): a missing slash gets "/32" appended, the
entry is parsed with `ip_network(..., strict=False)` (an uncaught
ValueError on failure), and the network is filed as an individual ip when
its prefix length equals 32, else as an existing subnet. -/
def groupStep (st : GroupState) (entry : String) : Except String GroupState :=
  let entry := if entry.toList.contains '/' then entry else entry ++ "/32"
  match ip_network entry with
  | .error e => .error e
  | .ok network =>
    if network.prefixlen = 32 then
      .ok { st with
              ipDict := dictAppend st.ipDict (netGroupKey network) network,
              individualIps := setAdd st.individualIps network }
    else
      .ok { st with existingSubnets := setAdd st.existingSubnets network }

/-- `group_ips_into_subnets` (src/main.py lines 207-247).  The returned
Python list comes from a set iterated in unspecified order, so the result
is modelled as the `Finset` of its members.  The deletion loop over
`existing_subnets` removes from the dict every key equal to the group key
of some explicit subnet (deletions commute, so set iteration order is
irrelevant); the result loop aggregates every surviving group whose list
length reaches the threshold and removes exactly those groups' members
from the individual set (groups are keyed by a function of the network, so
the removed unions commute as well). -/
def group_ips_into_subnets (addresses : List String) (threshold : Nat) :
    Except String (Finset String) :=
  match addresses.foldlM groupStep ⟨[], [], []⟩ with
  | .error e => .error e
  | .ok st =>
    let deletedKeys := st.existingSubnets.map netGroupKey
    let ipDict2 := st.ipDict.filter (fun kv => !(deletedKeys.contains kv.1))
    let groups := ipDict2.filter (fun kv => decide (threshold ≤ kv.2.length))
    let aggregatedIps := (groups.map (fun kv => kv.2)).flatten
    let individual2 := st.individualIps.filter (fun n => !(aggregatedIps.contains n))
    .ok (groups.map (fun kv => kv.1 ++ ".0/24")
          ++ st.existingSubnets.map netStr ++ individual2.map netStr).toFinset

/-! ### src/main.py: sort_entries_by_cidr -/

/-- The comparison induced by the sort key
`(network.prefixlen, network.network_address)`: prefix length first, then
numeric address value.  Addresses are only consulted on equal prefix
lengths, where the guard in `sort_entries_by_cidr` has ensured equal
versions. -/
def netLe (n m : IPNet) : Bool :=
  if n.prefixlen = m.prefixlen then decide (n.addr ≤ m.addr)
  else decide (n.prefixlen < m.prefixlen)

/-- The per-item key computation of Python `sorted` with a key callable:
`sort_key` (src/main.py lines 261-263) applied to a dict item, keeping the
item alongside its key. -/
def parseKeyed (p : String × String) : Except String ((String × String) × IPNet) :=
  (ip_network p.1).map (fun n => (p, n))

/-- The key precomputation of `sorted` over all items, left to right; the
first ValueError raised by a key computation propagates. -/
def computeKeyed : List (String × String) →
    Except String (List ((String × String) × IPNet))
  | [] => .ok []
  | p :: rest =>
    match parseKeyed p with
    | .error e => .error e
    | .ok kv =>
      match computeKeyed rest with
      | .error e => .error e
      | .ok krest => .ok (kv :: krest)

/-- `sort_entries_by_cidr` (src/main.py lines 250-267).  Python's `sorted`
first computes `sort_key` for every item (a ValueError propagates when a
key does not parse) and then sorts by the key tuples; comparing two
addresses of different versions raises TypeError, so a dict containing two
keys with equal prefix length and different IP versions is modelled as an
error (CPython raises whenever such a pair is actually compared; no claim
below concerns that domain).  `sorted` is stable, modelled by the stable
`List.mergeSort`. -/
def sort_entries_by_cidr (entries : List (String × String)) :
    Except String (List (String × String)) :=
  match computeKeyed entries with
  | .error e => .error e
  | .ok keyed =>
    if keyed.any (fun a => keyed.any (fun b =>
        decide (a.2.prefixlen = b.2.prefixlen) && decide (a.2.version ≠ b.2.version))) then
      .error "TypeError: addresses are not of the same version"
    else
      .ok ((keyed.mergeSort (fun a b => netLe a.2 b.2)).map (fun kv => kv.1))

/-! ### src/main.py: fetch_whois_info and the entry-map assembly -/

/-- Python dict lookup on an association list. -/
def dictGet (d : List (String × String)) (k : String) : Option String :=
  match d with
  | [] => none
  | (k1, v) :: rest => if k1 = k then some v else dictGet rest k

/-- Python `d[k] = v`: replace in place, or append a new key at the end. -/
def dictInsert (d : List (String × String)) (k v : String) : List (String × String) :=
  match d with
  | [] => [(k, v)]
  | (k1, v1) :: rest =>
    if k1 = k then (k1, v) :: rest else (k1, v1) :: dictInsert rest k v

/-- `fetch_whois_info` (src/main.py lines 270-301).  The HTTP call and the
comment assembly are the external collaborator, modelled by `lookup`
returning `some comment` on success and `none` when any exception is
raised; in the exception case the loop only logs, so no key is inserted
for that entry. -/
def fetch_whois_info (entries : List String) (existingEntries : List (String × String))
    (lookup : String → Option String) : List (String × String) :=
  entries.foldl (fun whois entry =>
    match dictGet existingEntries entry with
    | none =>
      match lookup entry with
      | some comment => dictInsert whois entry comment
      | none => whois
    | some c => dictInsert whois entry c) []

/-- Python `{**d, **upd}` = copy of `d` updated by `upd` in order. -/
def dictUpdate (d upd : List (String × String)) : List (String × String) :=
  upd.foldl (fun acc kv => dictInsert acc kv.1 kv.2) d

/-- The entry-map assembly of `process_lists` (src/main.py lines 372-382):
entries of the previous output file that are no longer current are
deleted, then the whois map is merged over the remainder.  This is the map
handed to `sort_entries_by_cidr` and then written out. -/
def merged_output_entries (existingEntries : List (String × String))
    (groupedAddresses : List String) (lookup : String → Option String) :
    List (String × String) :=
  let looked := fetch_whois_info groupedAddresses existingEntries lookup
  let kept := existingEntries.filter (fun kv => groupedAddresses.contains kv.1)
  dictUpdate kept looked

/-! ### src/main.py: write_to_output_file -/

structure OutputConfig where
  fg_max_entries : Nat
  fg_max_comment_length : Int
  fg_max_size_bytes : Nat

/-- Python `s[:k]` for an `int` bound `k` (a negative bound counts from
the end, clamped at zero). -/
def pyTake (s : String) (k : Int) : String :=
  if 0 ≤ k then s.take k.toNat else s.take ((s.length : Int) + k).toNat

/-- The comment transformation inside the write loop (src/main.py lines
329-334): truncation with an ellipsis marker when the comment exceeds
`fg_max_comment_length - 2` characters, then hash and newline framing. -/
def renderComment (maxLen : Int) (comment : String) : String :=
  if (comment.length : Int) > maxLen - 2 then "# " ++ pyTake comment (maxLen - 5) ++ "...\n"
  else "# " ++ comment ++ "\n"

/-- One output line (src/main.py line 335). -/
def renderLine (maxLen : Int) (entry comment : String) : String :=
  if comment ≠ "" then entry ++ " " ++ renderComment maxLen comment else entry ++ "\n"

/-- The full text written by the write loop: the concatenation of the
rendered lines, in dict order. -/
def renderOutput (maxLen : Int) : List (String × String) → String
  | [] => ""
  | kv :: rest => renderLine maxLen kv.1 kv.2 ++ renderOutput maxLen rest

/-- `write_to_output_file` (src/main.py lines 304-346).  The result pair
is the returned success flag and the content of the output file after the
call (`previousContent` when nothing was written).  The entry-count cap is
checked before writing; the size cap is checked with `os.path.getsize`
after the file has already been rewritten (UTF-8 byte size of the rendered
text).  The `IOError` branch is the file-system collaborator and is not
modelled. -/
def write_to_output_file (entries : List (String × String)) (previousContent : String)
    (config : OutputConfig) : Bool × String :=
  if entries.length > config.fg_max_entries then (false, previousContent)
  else
    let content := renderOutput config.fg_max_comment_length entries
    if content.utf8ByteSize > config.fg_max_size_bytes then (false, content)
    else (true, content)

/-! ### src/main.py: load_existing_output_file_entries -/

/-- Python `str.strip()` whitespace set, ASCII part. -/
def isPySpace (c : Char) : Bool :=
  c = ' ' || c = '\t' || c = '\n' || c = '\x0b' || c = '\x0c' || c = '\r'

def stripWhile (p : Char → Bool) (l : List Char) : List Char :=
  ((l.dropWhile p).reverse.dropWhile p).reverse

/-- Python `s.strip()` (ASCII whitespace). -/
def pyStrip (s : String) : String := String.mk (stripWhile isPySpace s.toList)

/-- Python `s.strip("# ")`. -/
def pyStripHashSpace (s : String) : String :=
  String.mk (stripWhile (fun c => c = '#' || c = ' ') s.toList)

/-- Python text-file line iteration: split after every newline, keeping
the newline; a final fragment without a newline is its own line. -/
def linesAux : List Char → List Char → List (List Char)
  | [], acc => if acc.isEmpty then [] else [acc.reverse]
  | c :: rest, acc =>
    if c = '\n' then (acc.reverse ++ ['\n']) :: linesAux rest []
    else linesAux rest (c :: acc)

def pyLines (s : String) : List String := (linesAux s.toList []).map String.mk

/-- Python `line.split(" ", 1)`. -/
def splitFirstSpace : List Char → List (List Char)
  | [] => [[]]
  | c :: rest =>
    if c = ' ' then [[], rest]
    else
      match splitFirstSpace rest with
      | [] => [[c]]
      | a :: b => (c :: a) :: b

/-- One iteration of the parse loop of `load_existing_output_file_entries`
(src/main.py lines 155-160). -/
def parseOutputLine (d : List (String × String)) (line : String) :
    List (String × String) :=
  if pyStrip line = "" then d
  else if line.toList.take 1 = ['#'] then d
  else
    match splitFirstSpace line.toList with
    | [] => d
    | [e] => dictInsert d (pyStrip (String.mk e)) ""
    | e :: rest :: _ =>
      dictInsert d (pyStrip (String.mk e)) (pyStrip (pyStripHashSpace (String.mk rest)))

/-- `load_existing_output_file_entries` (src/main.py lines 142-164)
applied to the content of an existing output file. -/
def load_existing_output_file_entries (content : String) : List (String × String) :=
  (pyLines content).foldl parseOutputLine []

/-! ### src/main.py: the per-file loop and publish decision of main -/

/-- The per-file loop of `main` (src/main.py lines 402-422): every file in
the list is processed in order (a failure result for one file does not
stop the loop), and `commit_and_push_changes` is reached exactly when
`processed and not config["debug"]` holds afterwards, where `processed` is
the success flag of the LAST iteration (with no files the name `processed`
is unbound and Python raises NameError).  The result is the list of
per-file success flags together with whether the publish step runs. -/
def main_run {α : Type} (processOne : α → Bool) (files : List α) (debug : Bool) :
    Except String (List Bool × Bool) :=
  let results := files.map processOne
  match results.getLast? with
  | none => .error "NameError: name processed is not defined"
  | some processed => .ok (results, processed && !debug)

/-! ### Predicates used by the statements below -/

/-- The conditions under which `group_ips_into_subnets` files the string
`s` as an individual host of the group keyed `p`, parsed as the /32
network `n`: no slash in `s`, and `s ++ "/32"` parses to a network with
prefix length 32 whose group key is `p`. -/
def IsHostOf (p : String) (s : String) (n : IPNet) : Prop :=
  s.toList.contains '/' = false ∧ ip_network (s ++ "/32") = .ok n ∧
    n.prefixlen = 32 ∧ netGroupKey n = p

/-- A registry-lookup collaborator whose call raises for every entry. -/
def failingLookup : String → Option String := fun _ => none

/-- The sort-key order of `sort_entries_by_cidr` read back on the entry
strings: both parse, and the keys `(prefixlen, network_address)` are in
(non-strict) lexicographic order. -/
def entryKeyLe (s t : String) : Prop :=
  ∃ n m, ip_network s = .ok n ∧ ip_network t = .ok m ∧
    (n.prefixlen < m.prefixlen ∨ (n.prefixlen = m.prefixlen ∧ n.addr ≤ m.addr))

/-- An entry key that survives the output round trip: nonempty, free of
whitespace characters, and not beginning with a hash. -/
def GoodEntryKey (e : String) : Prop :=
  e.data ≠ [] ∧ (∀ c ∈ e.data, isPySpace c = false) ∧ e.data.head? ≠ some '#'

/-- A comment that survives the output round trip: either empty, or free
of newlines, not beginning with a hash or whitespace, not ending in
whitespace, and short enough that the write loop leaves it untruncated. -/
def GoodComment (maxLen : Int) (c : String) : Prop :=
  c = "" ∨
    (c.data ≠ [] ∧ ('\n' ∉ c.data) ∧
     (∀ x, c.data.head? = some x → isPySpace x = false ∧ x ≠ '#') ∧
     (∀ x, c.data.getLast? = some x → isPySpace x = false) ∧
     (c.length : Int) ≤ maxLen - 2)

/-! ## Claim C4: a host address with an out-of-range prefix length -/

/-- C4.  The claim states that every line failing address or CIDR parsing
is rejected by validation and the run continues.  The code violates it:
"1.2.3.4/99" passes `validate_ip_addresses` (only the part before the
slash is checked) and then `ip_network` inside `group_ips_into_subnets`
raises an uncaught ValueError, aborting the run.  This theorem evaluates
the code at that failing input. -/
theorem spec_c4 :
    validate_ip_addresses ["1.2.3.4/99"] = ["1.2.3.4/99"] ∧
    (group_ips_into_subnets ["1.2.3.4/99"] 3).toOption = none := by
  decide

/-! ## Claim C6: IPv6 entries are not passed through unchanged -/

/-- C6.  The claim states that a valid IPv6 address passes through the
aggregator unchanged.  The code violates it: "2001:db8::1" receives the
IPv4-specific "/32" suffix, `ip_network` masks it to the network
2001:db8::/32 (prefix length 32, host bits cleared), and the output
contains "2001:db8::/32" instead of the original address.  This theorem
evaluates the code at that failing input. -/
theorem spec_c6 :
    group_ips_into_subnets ["2001:db8::1"] 3 = .ok ({"2001:db8::/32"} : Finset String) ∧
    ("2001:db8::1" : String) ∉ ({"2001:db8::/32"} : Finset String) := by
  decide

/-! ## Claim C2: the two output caps -/

/-- C2 counterexample.  The claim states that exceeding either cap leaves
the previously persisted output content unchanged.  With a size cap of 3
bytes, one entry and previous content "old", the call returns failure but
the file now holds the new rendering "1.2.3.4\n", not "old". -/
theorem spec_c2_counterexample :
    (write_to_output_file [("1.2.3.4", "")] "old" ⟨10, 255, 3⟩).1 = false ∧
    (write_to_output_file [("1.2.3.4", "")] "old" ⟨10, 255, 3⟩).2 ≠ "old" := by
  decide

/-- C2 as amended: exceeding the entry-count cap returns failure before
anything is written, so the previous content survives; exceeding the size
cap also returns failure, but only after the file has been rewritten, so
the file already holds the new rendering. -/
theorem spec_c2 (entries : List (String × String)) (prev : String) (config : OutputConfig) :
    (entries.length > config.fg_max_entries →
      write_to_output_file entries prev config = (false, prev)) ∧
    (entries.length ≤ config.fg_max_entries →
      (renderOutput config.fg_max_comment_length entries).utf8ByteSize >
          config.fg_max_size_bytes →
      write_to_output_file entries prev config =
        (false, renderOutput config.fg_max_comment_length entries)) := by
  constructor
  · intro h
    simp [write_to_output_file, h]
  · intro h1 h2
    simp [write_to_output_file, Nat.not_lt.mpr h1, h2]

/-- C2 witness: both branches of `spec_c2` at concrete inputs. -/
theorem spec_c2_witness :
    write_to_output_file [("1.2.3.4", "")] "old" ⟨0, 255, 1000⟩ = (false, "old") ∧
    write_to_output_file [("1.2.3.4", "")] "old" ⟨10, 255, 3⟩ = (false, "1.2.3.4\n") := by
  refine ⟨(spec_c2 [("1.2.3.4", "")] "old" ⟨0, 255, 1000⟩).1 (by decide), ?_⟩
  have h := (spec_c2 [("1.2.3.4", "")] "old" ⟨10, 255, 3⟩).2 (by decide) (by decide)
  simpa using h

/-! ## Claim C9: the publish decision after the per-file loop -/

/-- C9 counterexample.  The claim states that `commit_and_push_changes` is
never invoked when any file's validation failed.  With two files whose
results are failure then success (and debug off), the loop finishes, the
flag `processed` holds only the last result, and the publish step runs
even though the first file failed. -/
theorem spec_c9_counterexample :
    main_run id [false, true] false = .ok ([false, true], true) ∧ false ∈ [false, true] := by
  decide

/-- C9 as amended: every file is processed in order (the loop is not
aborted by a failure result), but the publish decision depends only on the
last file's success flag and the debug switch; failures of earlier files
do not prevent the publish step. -/
theorem spec_c9 {α : Type} (processOne : α → Bool) (files : List α) (debug : Bool)
    (last : Bool) (hlast : (files.map processOne).getLast? = some last) :
    main_run processOne files debug = .ok (files.map processOne, last && !debug) := by
  simp only [main_run, hlast]

/-- C9 witness: `spec_c9` at two concrete runs. -/
theorem spec_c9_witness :
    main_run id [false, true] false = .ok ([false, true], true) ∧
    main_run id [true, false] false = .ok ([true, false], false) :=
  ⟨spec_c9 id [false, true] false true (by decide),
   spec_c9 id [true, false] false false (by decide)⟩

/-! ## Claim C5: a failing registry lookup for a new entry -/

theorem dictGet_dictInsert (d : List (String × String)) (k1 v k : String) :
    dictGet (dictInsert d k1 v) k = if k1 = k then some v else dictGet d k := by
  induction d with
  | nil =>
    by_cases h : k1 = k <;> simp [dictInsert, dictGet, h]
  | cons hd tl ih =>
    obtain ⟨k2, v2⟩ := hd
    by_cases h2 : k2 = k1
    · subst h2
      by_cases h : k2 = k <;> simp [dictInsert, dictGet, h]
    · by_cases h : k2 = k
      · have h1 : ¬ k1 = k := fun he => h2 (h.trans he.symm)
        have h1s : ¬ k = k1 := fun he => h1 he.symm
        simp [dictInsert, dictGet, h2, h, h1, h1s]
      · simp [dictInsert, dictGet, h2, h, ih]

theorem dictGet_filter_of_none (d : List (String × String)) (f : String × String → Bool)
    (k : String) (h : dictGet d k = none) : dictGet (d.filter f) k = none := by
  induction d with
  | nil => simp [dictGet]
  | cons hd tl ih =>
    obtain ⟨k1, v1⟩ := hd
    by_cases hk : k1 = k
    · simp [dictGet, hk] at h
    · simp only [dictGet, if_neg hk] at h
      by_cases hf : f (k1, v1) <;> simp [List.filter, hf, dictGet, hk, ih h]

theorem dictGet_dictUpdate_of_none (upd : List (String × String)) (d : List (String × String))
    (k : String) (h : dictGet upd k = none) : dictGet (dictUpdate d upd) k = dictGet d k := by
  induction upd generalizing d with
  | nil => simp [dictUpdate]
  | cons hd tl ih =>
    obtain ⟨k1, v1⟩ := hd
    by_cases hk : k1 = k
    · simp [dictGet, hk] at h
    · simp only [dictGet, if_neg hk] at h
      have : dictUpdate d ((k1, v1) :: tl) = dictUpdate (dictInsert d k1 v1) tl := by
        simp [dictUpdate]
      rw [this, ih _ h, dictGet_dictInsert, if_neg hk]

theorem fetch_whois_foldl_none (entries : List String)
    (existingEntries : List (String × String)) (lookup : String → Option String)
    (entry : String) (hnew : dictGet existingEntries entry = none)
    (hfail : lookup entry = none) :
    ∀ acc : List (String × String), dictGet acc entry = none →
      dictGet (entries.foldl (fun whois e =>
        match dictGet existingEntries e with
        | none =>
          match lookup e with
          | some comment => dictInsert whois e comment
          | none => whois
        | some c => dictInsert whois e c) acc) entry = none := by
  induction entries with
  | nil => intro acc hacc; simpa using hacc
  | cons e tl ih =>
    intro acc hacc
    simp only [List.foldl_cons]
    by_cases he : e = entry
    · subst he
      simp only [hnew, hfail]
      exact ih acc hacc
    · rcases hex : dictGet existingEntries e with _ | c
      · rcases hlk : lookup e with _ | comment
        · exact ih acc hacc
        · refine ih _ ?_
          rw [dictGet_dictInsert, if_neg he]
          exact hacc
      · refine ih _ ?_
        rw [dictGet_dictInsert, if_neg he]
        exact hacc

/-- C5 counterexample.  The claim states that an entry whose registry
lookup fails still proceeds into the output with an empty comment.  With
one new entry and a lookup that raises, the whois map and the merged
output map are both empty: the entry is dropped for this run, it does not
appear with an empty comment. -/
theorem spec_c5_counterexample :
    fetch_whois_info ["1.2.3.4/32"] [] failingLookup = [] ∧
    merged_output_entries [] ["1.2.3.4/32"] failingLookup = [] := by
  decide

/-- C5 as amended: when the registry lookup raises for an entry that is
not in the previous output's map, the loop only logs (the run is not
aborted), but no key is inserted for the entry, so it is absent from the
whois map and from the merged map written for this run - it is dropped,
not carried with an empty comment. -/
theorem spec_c5 (entries : List String) (existingEntries : List (String × String))
    (lookup : String → Option String) (entry : String)
    (hmem : entry ∈ entries) (hnew : dictGet existingEntries entry = none)
    (hfail : lookup entry = none) :
    dictGet (fetch_whois_info entries existingEntries lookup) entry = none ∧
    dictGet (merged_output_entries existingEntries entries lookup) entry = none := by
  have hfetch : dictGet (fetch_whois_info entries existingEntries lookup) entry = none := by
    have := fetch_whois_foldl_none entries existingEntries lookup entry hnew hfail []
      (by simp [dictGet])
    simpa [fetch_whois_info] using this
  refine ⟨hfetch, ?_⟩
  have hkept : dictGet (existingEntries.filter (fun kv => entries.contains kv.1)) entry = none :=
    dictGet_filter_of_none _ _ _ hnew
  simpa [merged_output_entries, dictGet_dictUpdate_of_none _ _ _ hfetch] using hkept

/-- C5 witness: `spec_c5` at a concrete new entry with a failing lookup. -/
theorem spec_c5_witness :
    dictGet (fetch_whois_info ["1.2.3.4/32"] [] failingLookup) "1.2.3.4/32" = none ∧
    dictGet (merged_output_entries [] ["1.2.3.4/32"] failingLookup) "1.2.3.4/32" = none :=
  spec_c5 ["1.2.3.4/32"] [] failingLookup "1.2.3.4/32" (by decide) (by decide) (by decide)

/-! ## Claims C1 and C3: the aggregation loop on a single /24 group -/

theorem mem_setAdd {x a : IPNet} (init : List IPNet) :
    x ∈ setAdd init a ↔ x ∈ init ∨ x = a := by
  unfold setAdd
  by_cases h : a ∈ init
  · rw [if_pos (by simpa using h)]
    constructor
    · exact Or.inl
    · rintro (hx | rfl)
      · exact hx
      · exact h
  · rw [if_neg (by simpa using h)]
    simp

theorem mem_foldl_setAdd (x : IPNet) :
    ∀ (l init : List IPNet), x ∈ l.foldl setAdd init ↔ x ∈ init ∨ x ∈ l := by
  intro l
  induction l with
  | nil => simp
  | cons a tl ih =>
    intro init
    simp only [List.foldl_cons, ih, mem_setAdd, List.mem_cons]
    tauto

theorem foldl_setAdd_map_toFinset (f : IPNet → String) :
    ∀ (l init : List IPNet),
      ((l.foldl setAdd init).map f).toFinset = ((init ++ l).map f).toFinset := by
  intro l
  induction l with
  | nil => intro init; simp
  | cons a tl ih =>
    intro init
    simp only [List.foldl_cons]
    rw [ih]
    by_cases ha : a ∈ init
    · simp only [setAdd, if_pos (show init.contains a = true by simpa using ha)]
      apply Finset.ext
      intro x
      simp only [List.mem_toFinset, List.mem_map, List.mem_append, List.mem_cons]
      constructor
      · rintro ⟨y, hy, rfl⟩
        refine ⟨y, ?_, rfl⟩
        tauto
      · rintro ⟨y, hy, rfl⟩
        rcases hy with hy | (rfl | hy)
        · exact ⟨y, Or.inl hy, rfl⟩
        · exact ⟨y, Or.inl ha, rfl⟩
        · exact ⟨y, Or.inr hy, rfl⟩
    · simp only [setAdd, if_neg (show ¬ init.contains a = true by simpa using ha),
        List.append_assoc, List.singleton_append]

/-- The first loop of `group_ips_into_subnets` over host entries of a
single group `p`, starting from a dict that already holds that group. -/
theorem foldlM_groupStep_hosts (p : String) {hs : List String} {ns : List IPNet}
    (hrel : List.Forall₂ (IsHostOf p) hs ns) :
    ∀ (acc ex ind : List IPNet),
      List.foldlM groupStep (⟨[(p, acc)], ex, ind⟩ : GroupState) hs =
        .ok ⟨[(p, acc ++ ns)], ex, ns.foldl setAdd ind⟩ := by
  induction hrel with
  | nil =>
    intro acc ex ind
    simp only [List.foldlM, List.append_nil, List.foldl_nil]
    rfl
  | @cons a n tl ntl h rel ih =>
    intro acc ex ind
    obtain ⟨hslash, hparse, hpre, hkey⟩ := h
    have hslash2 : ¬ ('/' ∈ a.data) := by simpa [String.toList] using hslash
    have hstep : groupStep ⟨[(p, acc)], ex, ind⟩ a =
        .ok ⟨[(p, acc ++ [n])], ex, setAdd ind n⟩ := by
      simp [groupStep, hslash2, hparse, hpre, hkey, dictAppend]
    rw [List.foldlM_cons, hstep]
    show List.foldlM groupStep (⟨[(p, acc ++ [n])], ex, setAdd ind n⟩ : GroupState) tl = _
    rw [ih]
    simp

/-- C3.  For every nonempty set of distinct host addresses (no slash in
the line) that all parse as /32 networks sharing the group key `p` (the
same first three octets), with at least `threshold` of them, the
aggregator output is exactly the single aggregated /24 entry covering
them - the threshold is an inclusive lower bound - and none of the host
entries remain. -/
theorem spec_c3 (p h0 : String) (n0 : IPNet) (hs : List String) (ns : List IPNet)
    (threshold : Nat)
    (hrel : List.Forall₂ (IsHostOf p) (h0 :: hs) (n0 :: ns))
    (hnodup : (h0 :: hs).Nodup)
    (hthr : threshold ≤ (h0 :: hs).length) :
    group_ips_into_subnets (h0 :: hs) threshold = .ok {p ++ ".0/24"} := by
  rcases hrel with _ | ⟨h, rel⟩
  obtain ⟨hslash, hparse, hpre, hkey⟩ := h
  have hslash2 : ¬ ('/' ∈ h0.data) := by simpa [String.toList] using hslash
  have hfirst : groupStep ⟨[], [], []⟩ h0 = .ok ⟨[(p, [n0])], [], [n0]⟩ := by
    simp [groupStep, hslash2, hparse, hpre, hkey, dictAppend, setAdd]
  have hfold : List.foldlM groupStep (⟨[], [], []⟩ : GroupState) (h0 :: hs) =
      .ok ⟨[(p, n0 :: ns)], [], ns.foldl setAdd [n0]⟩ := by
    rw [List.foldlM_cons, hfirst]
    show List.foldlM groupStep (⟨[(p, [n0])], [], [n0]⟩ : GroupState) hs = _
    rw [foldlM_groupStep_hosts p rel [n0] [] [n0]]
    simp
  have hlen : ns.length = hs.length := (List.Forall₂.length_eq rel).symm
  have hthr2 : decide (threshold ≤ ns.length + 1) = true := by
    apply decide_eq_true
    rw [hlen]
    simpa using hthr
  have hind : List.filter (fun n => !decide (n = n0) && !decide (n ∈ ns))
      (List.foldl setAdd [n0] ns) = [] := by
    rw [List.filter_eq_nil_iff]
    intro x hx
    rcases (mem_foldl_setAdd x ns [n0]).mp hx with h1 | h1
    · simp only [List.mem_singleton] at h1
      simp [h1]
    · simp [h1]
  simp only [group_ips_into_subnets, hfold]
  simp [List.filter, hthr2, hind]

/-- C3 witness: `spec_c3` at the spec's own example, threshold 3 with the
three hosts 1.2.3.1 - 1.2.3.3. -/
theorem spec_c3_witness :
    group_ips_into_subnets ["1.2.3.1", "1.2.3.2", "1.2.3.3"] 3 = .ok {"1.2.3.0/24"} :=
  spec_c3 "1.2.3" "1.2.3.1" ⟨IPVersion.v4, 16909057, 32⟩ ["1.2.3.2", "1.2.3.3"]
    [⟨IPVersion.v4, 16909058, 32⟩, ⟨IPVersion.v4, 16909059, 32⟩] 3
    (List.Forall₂.cons ⟨by decide, by decide, by decide, by decide⟩
      (List.Forall₂.cons ⟨by decide, by decide, by decide, by decide⟩
        (List.Forall₂.cons ⟨by decide, by decide, by decide, by decide⟩
          List.Forall₂.nil)))
    (by decide) (by decide)

/-- C1 counterexample.  The claim states that with an explicit /24 subnet
and at least threshold matching hosts, the output contains only the
explicit subnet and none of the host entries.  With the subnet 1.2.3.0/24
and three matching hosts at threshold 3, the output keeps all three hosts
as /32 entries: "1.2.3.1/32" is in the output. -/
theorem spec_c1_counterexample :
    group_ips_into_subnets ["1.2.3.0/24", "1.2.3.1", "1.2.3.2", "1.2.3.3"] 3 =
      .ok ({"1.2.3.0/24", "1.2.3.1/32", "1.2.3.2/32", "1.2.3.3/32"} : Finset String) ∧
    ("1.2.3.1/32" : String) ∈
      ({"1.2.3.0/24", "1.2.3.1/32", "1.2.3.2/32", "1.2.3.3/32"} : Finset String) := by
  decide

/-- C1 as amended.  When an explicit /24 subnet is present alongside at
least threshold hosts whose group key matches it, no aggregated /24
duplicate is emitted (the group is discarded before aggregation), but the
host entries are not suppressed: the output is exactly the explicit
subnet together with every host as a /32 entry. -/
theorem spec_c1 (p subnetStr h0 : String) (sn n0 : IPNet) (hs : List String) (ns : List IPNet)
    (threshold : Nat)
    (hsl : subnetStr.toList.contains '/' = true)
    (hparse : ip_network subnetStr = .ok sn)
    (hpre : sn.prefixlen = 24)
    (hkey : netGroupKey sn = p)
    (hrel : List.Forall₂ (IsHostOf p) (h0 :: hs) (n0 :: ns))
    (hthr : threshold ≤ (h0 :: hs).length) :
    group_ips_into_subnets (subnetStr :: h0 :: hs) threshold =
      .ok (insert (netStr sn) ((n0 :: ns).map netStr).toFinset) := by
  rcases hrel with _ | ⟨h, rel⟩
  obtain ⟨hslash, hparse0, hpre0, hkey0⟩ := h
  have hsl2 : ('/' ∈ subnetStr.data) := by simpa [String.toList] using hsl
  have hslash2 : ¬ ('/' ∈ h0.data) := by simpa [String.toList] using hslash
  have hsub : groupStep ⟨[], [], []⟩ subnetStr = .ok ⟨[], [sn], []⟩ := by
    simp [groupStep, hsl2, hparse, hpre, setAdd]
  have hstep0 : groupStep ⟨[], [sn], []⟩ h0 = .ok ⟨[(p, [n0])], [sn], [n0]⟩ := by
    simp [groupStep, hslash2, hparse0, hpre0, hkey0, dictAppend, setAdd]
  have hfold : List.foldlM groupStep (⟨[], [], []⟩ : GroupState) (subnetStr :: h0 :: hs) =
      .ok ⟨[(p, n0 :: ns)], [sn], ns.foldl setAdd [n0]⟩ := by
    rw [List.foldlM_cons, hsub]
    show List.foldlM groupStep (⟨[], [sn], []⟩ : GroupState) (h0 :: hs) = _
    rw [List.foldlM_cons, hstep0]
    show List.foldlM groupStep (⟨[(p, [n0])], [sn], [n0]⟩ : GroupState) hs = _
    rw [foldlM_groupStep_hosts p rel [n0] [sn] [n0]]
    simp
  simp only [group_ips_into_subnets, hfold]
  simp [hkey, List.filter, foldl_setAdd_map_toFinset]

/-- C1 witness: `spec_c1` at the explicit subnet 1.2.3.0/24 with the three
hosts 1.2.3.1 - 1.2.3.3 and threshold 3. -/
theorem spec_c1_witness :
    group_ips_into_subnets ["1.2.3.0/24", "1.2.3.1", "1.2.3.2", "1.2.3.3"] 3 =
      .ok (insert (netStr ⟨IPVersion.v4, 16909056, 24⟩)
        (([⟨IPVersion.v4, 16909057, 32⟩, ⟨IPVersion.v4, 16909058, 32⟩,
           ⟨IPVersion.v4, 16909059, 32⟩] : List IPNet).map netStr).toFinset) :=
  spec_c1 "1.2.3" "1.2.3.0/24" "1.2.3.1" ⟨IPVersion.v4, 16909056, 24⟩
    ⟨IPVersion.v4, 16909057, 32⟩ ["1.2.3.2", "1.2.3.3"]
    [⟨IPVersion.v4, 16909058, 32⟩, ⟨IPVersion.v4, 16909059, 32⟩] 3
    (by decide) (by decide) (by decide) (by decide)
    (List.Forall₂.cons ⟨by decide, by decide, by decide, by decide⟩
      (List.Forall₂.cons ⟨by decide, by decide, by decide, by decide⟩
        (List.Forall₂.cons ⟨by decide, by decide, by decide, by decide⟩
          List.Forall₂.nil)))
    (by decide)

/-! ## Claims C7 and C10: the canonical sort -/

theorem netLe_iff (a b : IPNet) :
    netLe a b = true ↔
      a.prefixlen < b.prefixlen ∨ (a.prefixlen = b.prefixlen ∧ a.addr ≤ b.addr) := by
  unfold netLe
  by_cases h : a.prefixlen = b.prefixlen <;> simp [h]

theorem netLe_trans (a b c : IPNet) (h1 : netLe a b = true) (h2 : netLe b c = true) :
    netLe a c = true := by
  rw [netLe_iff] at h1 h2 ⊢
  omega

theorem netLe_total (a b : IPNet) : (netLe a b || netLe b a) = true := by
  simp only [Bool.or_eq_true, netLe_iff]
  omega

theorem computeKeyed_ok :
    ∀ (entries : List (String × String)) (keyed : List ((String × String) × IPNet)),
      computeKeyed entries = .ok keyed →
      keyed.map (fun kv => kv.1) = entries ∧
        ∀ kv ∈ keyed, ip_network kv.1.1 = .ok kv.2 := by
  intro entries
  induction entries with
  | nil =>
    intro keyed h
    simp only [computeKeyed, Except.ok.injEq] at h
    subst h
    simp
  | cons e tl ih =>
    intro keyed h
    cases hip : ip_network e.1 with
    | error err => simp [computeKeyed, parseKeyed, hip, Except.map] at h
    | ok n =>
      cases htl : computeKeyed tl with
      | error err =>
        simp [computeKeyed, parseKeyed, hip, htl, Except.map] at h
      | ok ktl =>
        simp only [computeKeyed, parseKeyed, hip, htl, Except.map, Except.ok.injEq] at h
        obtain ⟨h1, h2⟩ := ih ktl htl
        subst h
        refine ⟨by simp [h1], ?_⟩
        intro kv hkv
        rcases List.mem_cons.mp hkv with h3 | h3
        · subst h3
          simp [hip]
        · exact h2 kv h3

/-- The general ordering law behind claim C7, separated so that it can be
applied at concrete inputs. -/
theorem sort_entries_pairwise (entries out : List (String × String))
    (h : sort_entries_by_cidr entries = .ok out) :
    out.Pairwise (fun a b => entryKeyLe a.1 b.1) := by
  unfold sort_entries_by_cidr at h
  split at h
  · cases h
  next keyed hmap =>
    split at h
    · cases h
    · cases h
      obtain ⟨-, hparse⟩ := computeKeyed_ok entries keyed hmap
      have hsorted : (keyed.mergeSort (fun a b => netLe a.2 b.2)).Pairwise
          (fun a b => netLe a.2 b.2 = true) :=
        List.sorted_mergeSort (fun a b c => netLe_trans a.2 b.2 c.2)
          (fun a b => netLe_total a.2 b.2) keyed
      rw [List.pairwise_map]
      refine hsorted.imp_of_mem ?_
      intro a b ha hb hle
      have hpa : ip_network a.1.1 = .ok a.2 := hparse a (List.mem_mergeSort.mp ha)
      have hpb : ip_network b.1.1 = .ok b.2 := hparse b (List.mem_mergeSort.mp hb)
      refine ⟨a.2, b.2, hpa, hpb, ?_⟩
      have := (netLe_iff a.2 b.2).mp hle
      omega

unseal List.merge List.mergeSort in
/-- C7.  For entry maps whose keys all parse (and are mutually
comparable), `sort_entries_by_cidr` orders the entries by the key
(prefix length ascending, then numeric network address ascending); in
particular the three entries of the spec's example come back in the order
10.0.0.0/24, 10.0.1.0/24, 10.0.0.1/32. -/
theorem spec_c7 :
    (∀ (entries out : List (String × String)), sort_entries_by_cidr entries = .ok out →
      out.Pairwise (fun a b => entryKeyLe a.1 b.1)) ∧
    sort_entries_by_cidr [("10.0.0.0/24", ""), ("10.0.0.1/32", ""), ("10.0.1.0/24", "")] =
      .ok [("10.0.0.0/24", ""), ("10.0.1.0/24", ""), ("10.0.0.1/32", "")] :=
  ⟨sort_entries_pairwise, by decide⟩

/-- C7 witness: the ordering law of `spec_c7` discharged at the spec's
example, whose sorted form is supplied by the second half of `spec_c7`. -/
theorem spec_c7_witness :
    ([("10.0.0.0/24", ""), ("10.0.1.0/24", ""), ("10.0.0.1/32", "")] :
        List (String × String)).Pairwise (fun a b => entryKeyLe a.1 b.1) :=
  spec_c7.1 [("10.0.0.0/24", ""), ("10.0.0.1/32", ""), ("10.0.1.0/24", "")]
    [("10.0.0.0/24", ""), ("10.0.1.0/24", ""), ("10.0.0.1/32", "")] spec_c7.2

/-- C10.  Whenever `sort_entries_by_cidr` returns a mapping, it is a
permutation of the input mapping: the same key-comment pairs, no entry
added or dropped, no comment altered; only the order changes (and the
input list itself is untouched, the function being pure). -/
theorem spec_c10 (entries out : List (String × String))
    (h : sort_entries_by_cidr entries = .ok out) : out.Perm entries := by
  unfold sort_entries_by_cidr at h
  split at h
  · cases h
  next keyed hmap =>
    split at h
    · cases h
    · cases h
      obtain ⟨hfst, -⟩ := computeKeyed_ok entries keyed hmap
      have hperm := List.mergeSort_perm keyed (fun a b => netLe a.2 b.2)
      have := hperm.map (fun kv => kv.1)
      rwa [hfst] at this

unseal List.merge List.mergeSort in
/-- C10 witness: `spec_c10` at a concrete two-entry mapping. -/
theorem spec_c10_witness :
    ([("10.0.0.0/24", "a"), ("10.0.0.1/32", "b")] : List (String × String)).Perm
      [("10.0.0.1/32", "b"), ("10.0.0.0/24", "a")] :=
  spec_c10 [("10.0.0.1/32", "b"), ("10.0.0.0/24", "a")]
    [("10.0.0.0/24", "a"), ("10.0.0.1/32", "b")] (by decide)

/-! ## Claim C8: the write / parse round trip -/

theorem mem_of_head? {z : Char} : ∀ {l : List Char}, l.head? = some z → z ∈ l
  | a :: _, h => by
    simp only [List.head?_cons, Option.some.injEq] at h
    subst h
    exact List.mem_cons_self a _

theorem mem_of_getLast? {z : Char} {l : List Char} (hz : l.getLast? = some z) : z ∈ l := by
  have h1 : l.reverse.head? = some z := by rwa [List.head?_reverse]
  have h2 := mem_of_head? h1
  simpa using h2

theorem dropWhile_eq_self_of_head (p : Char → Bool) (l : List Char)
    (h : ∀ x, l.head? = some x → p x = false) : l.dropWhile p = l := by
  cases l with
  | nil => rfl
  | cons x xs => simp [List.dropWhile_cons, h x rfl]

theorem stripWhile_eq_self (p : Char → Bool) (l : List Char)
    (hhead : ∀ x, l.head? = some x → p x = false)
    (hlast : ∀ x, l.getLast? = some x → p x = false) : stripWhile p l = l := by
  unfold stripWhile
  rw [dropWhile_eq_self_of_head p l hhead]
  rw [dropWhile_eq_self_of_head p l.reverse
    (fun x hx => hlast x (by rwa [List.head?_reverse] at hx))]
  exact List.reverse_reverse l

theorem stripWhile_body_newline (p : Char → Bool) (hnl : p '\n' = true) (body : List Char)
    (hhead : ∀ x, body.head? = some x → p x = false)
    (hlast : ∀ x, body.getLast? = some x → p x = false) :
    stripWhile p (body ++ ['\n']) = body := by
  cases body with
  | nil => simp [stripWhile, List.dropWhile, hnl]
  | cons x xs =>
    unfold stripWhile
    rw [show ((x :: xs) ++ ['\n']) = x :: (xs ++ ['\n']) from rfl]
    rw [List.dropWhile_cons, if_neg (by simp [hhead x rfl])]
    have h1 : (x :: (xs ++ ['\n'])).reverse = '\n' :: (x :: xs).reverse := by simp
    rw [h1, List.dropWhile_cons, if_pos hnl]
    rw [dropWhile_eq_self_of_head p (x :: xs).reverse
      (fun z hz => hlast z (by rwa [List.head?_reverse] at hz))]
    exact List.reverse_reverse (x :: xs)

theorem splitFirstSpace_no_space (l : List Char) (h : ∀ c ∈ l, c ≠ ' ') :
    splitFirstSpace l = [l] := by
  induction l with
  | nil => rfl
  | cons x xs ih =>
    have hx : x ≠ ' ' := h x (List.mem_cons_self x xs)
    simp only [splitFirstSpace, if_neg hx,
      ih (fun c hc => h c (List.mem_cons_of_mem x hc))]

theorem splitFirstSpace_append (l r : List Char) (h : ∀ c ∈ l, c ≠ ' ') :
    splitFirstSpace (l ++ ' ' :: r) = [l, r] := by
  induction l with
  | nil => simp [splitFirstSpace]
  | cons x xs ih =>
    have hx : x ≠ ' ' := h x (List.mem_cons_self x xs)
    have ih2 := ih (fun c hc => h c (List.mem_cons_of_mem x hc))
    show splitFirstSpace (x :: (xs ++ ' ' :: r)) = [x :: xs, r]
    rw [splitFirstSpace, if_neg hx, ih2]

theorem getLast?_append_right (l1 l2 : List Char) (h : l2 ≠ []) :
    (l1 ++ l2).getLast? = l2.getLast? := by
  obtain ⟨y, ys, rfl⟩ : ∃ y ys, l2 = y :: ys := by
    cases l2 with
    | nil => exact absurd rfl h
    | cons a b => exact ⟨a, b, rfl⟩
  rw [← List.head?_reverse, ← List.head?_reverse, List.reverse_append, List.reverse_cons,
    List.append_assoc]
  cases hrev : ys.reverse with
  | nil => simp
  | cons a t => simp

theorem dictInsert_eq_append (d : List (String × String)) (k v : String)
    (h : dictGet d k = none) : dictInsert d k v = d ++ [(k, v)] := by
  induction d with
  | nil => rfl
  | cons hd tl ih =>
    obtain ⟨k1, v1⟩ := hd
    by_cases hk : k1 = k
    · simp [dictGet, hk] at h
    · simp only [dictGet, if_neg hk] at h
      simp [dictInsert, hk, ih h]

theorem dictGet_append_right (d d2 : List (String × String)) (k : String)
    (h : dictGet d k = none) : dictGet (d ++ d2) k = dictGet d2 k := by
  induction d with
  | nil => simp
  | cons hd tl ih =>
    obtain ⟨k1, v1⟩ := hd
    by_cases hk : k1 = k
    · simp [dictGet, hk] at h
    · simp only [dictGet, if_neg hk] at h
      simp [dictGet, hk, ih h]

theorem renderLine_empty_data (maxLen : Int) (e : String) :
    (renderLine maxLen e "").data = e.data ++ ['\n'] := by
  simp [renderLine, String.data_append]

theorem renderLine_comment_data (maxLen : Int) (e c : String) (hne : c ≠ "")
    (hlen : (c.length : Int) ≤ maxLen - 2) :
    (renderLine maxLen e c).data = e.data ++ ' ' :: '#' :: ' ' :: (c.data ++ ['\n']) := by
  unfold renderLine renderComment
  rw [if_pos hne, if_neg (by omega)]
  simp [String.data_append]

theorem isPySpace_ne_space {c : Char} (h : isPySpace c = false) : c ≠ ' ' := by
  intro hc
  subst hc
  simp [isPySpace] at h

theorem parseOutputLine_entry_only (d : List (String × String)) (e : String)
    (hg : GoodEntryKey e) :
    parseOutputLine d (String.mk (e.data ++ ['\n'])) = dictInsert d e "" := by
  obtain ⟨hne, hsp, hhash⟩ := hg
  have hstrip : pyStrip (String.mk (e.data ++ ['\n'])) = e := by
    show String.mk (stripWhile isPySpace (e.data ++ ['\n'])) = e
    rw [stripWhile_body_newline isPySpace (by decide) e.data
      (fun z hz => hsp z (mem_of_head? hz)) (fun z hz => hsp z (mem_of_getLast? hz))]
  have hsne : pyStrip (String.mk (e.data ++ ['\n'])) ≠ "" := by
    rw [hstrip]
    intro h0
    exact hne (congrArg String.data h0)
  obtain ⟨x, xs, hx⟩ : ∃ x xs, e.data = x :: xs := by
    cases hdata : e.data with
    | nil => exact absurd hdata hne
    | cons a b => exact ⟨a, b, rfl⟩
  have hhash2 : (String.mk (e.data ++ ['\n'])).toList.take 1 ≠ ['#'] := by
    show (e.data ++ ['\n']).take 1 ≠ ['#']
    rw [hx]
    intro hcontr
    simp only [List.cons_append, List.take_succ_cons, List.take_zero, List.cons.injEq] at hcontr
    exact hhash (by rw [hx, hcontr.1]; rfl)
  have hsplit : splitFirstSpace (String.mk (e.data ++ ['\n'])).toList = [e.data ++ ['\n']] := by
    show splitFirstSpace (e.data ++ ['\n']) = _
    apply splitFirstSpace_no_space
    intro ch hch
    rcases List.mem_append.mp hch with hch | hch
    · exact isPySpace_ne_space (hsp ch hch)
    · simp only [List.mem_singleton] at hch
      subst hch
      decide
  unfold parseOutputLine
  rw [if_neg hsne, if_neg hhash2, hsplit]
  show dictInsert d (pyStrip (String.mk (e.data ++ ['\n']))) "" = _
  rw [hstrip]

theorem parseOutputLine_with_comment (d : List (String × String)) (e c : String)
    (hg : GoodEntryKey e)
    (hcd : c.data ≠ []) (hcn : '\n' ∉ c.data)
    (hch : ∀ x, c.data.head? = some x → isPySpace x = false ∧ x ≠ '#')
    (hcl : ∀ x, c.data.getLast? = some x → isPySpace x = false) :
    parseOutputLine d (String.mk (e.data ++ ' ' :: '#' :: ' ' :: (c.data ++ ['\n']))) =
      dictInsert d e c := by
  obtain ⟨hne, hsp, hhash⟩ := hg
  obtain ⟨x, xs, hx⟩ : ∃ x xs, e.data = x :: xs := by
    cases hdata : e.data with
    | nil => exact absurd hdata hne
    | cons a b => exact ⟨a, b, rfl⟩
  obtain ⟨y, ys, hy⟩ : ∃ y ys, c.data = y :: ys := by
    cases hdata : c.data with
    | nil => exact absurd hdata hcd
    | cons a b => exact ⟨a, b, rfl⟩
  have hxsp : isPySpace x = false := hsp x (by rw [hx]; exact List.mem_cons_self x xs)
  have hstrip : pyStrip (String.mk (e.data ++ ' ' :: '#' :: ' ' :: (c.data ++ ['\n']))) ≠ "" := by
    show String.mk (stripWhile isPySpace (e.data ++ ' ' :: '#' :: ' ' :: (c.data ++ ['\n']))) ≠ ""
    rw [show e.data ++ ' ' :: '#' :: ' ' :: (c.data ++ ['\n']) =
        (e.data ++ ' ' :: '#' :: ' ' :: c.data) ++ ['\n'] by simp]
    rw [stripWhile_body_newline isPySpace (by decide) _
      (by
        intro z hz
        rw [hx] at hz
        simp only [List.cons_append, List.head?_cons, Option.some.injEq] at hz
        subst hz
        exact hxsp)
      (by
        intro z hz
        have hg2 : (e.data ++ ' ' :: '#' :: ' ' :: c.data).getLast? = c.data.getLast? := by
          rw [show ' ' :: '#' :: ' ' :: c.data = [' ', '#', ' '] ++ c.data from rfl,
            ← List.append_assoc, getLast?_append_right _ _ hcd]
        rw [hg2] at hz
        exact hcl z hz)]
    intro h0
    have := congrArg String.data h0
    simp only [] at this
    rw [hx] at this
    cases this
  have hhash2 : (String.mk (e.data ++ ' ' :: '#' :: ' ' :: (c.data ++ ['\n']))).toList.take 1 ≠
      ['#'] := by
    show (e.data ++ ' ' :: '#' :: ' ' :: (c.data ++ ['\n'])).take 1 ≠ ['#']
    rw [hx]
    intro hcontr
    simp only [List.cons_append, List.take_succ_cons, List.take_zero, List.cons.injEq] at hcontr
    exact hhash (by rw [hx, hcontr.1]; rfl)
  have hsplit : splitFirstSpace
      (String.mk (e.data ++ ' ' :: '#' :: ' ' :: (c.data ++ ['\n']))).toList =
      [e.data, '#' :: ' ' :: (c.data ++ ['\n'])] := by
    show splitFirstSpace (e.data ++ ' ' :: '#' :: ' ' :: (c.data ++ ['\n'])) = _
    exact splitFirstSpace_append e.data ('#' :: ' ' :: (c.data ++ ['\n']))
      (fun ch hch => isPySpace_ne_space (hsp ch hch))
  have hentry : pyStrip (String.mk e.data) = e := by
    show String.mk (stripWhile isPySpace e.data) = e
    rw [stripWhile_eq_self isPySpace e.data
      (fun z hz => hsp z (mem_of_head? hz)) (fun z hz => hsp z (mem_of_getLast? hz))]
  have hcomment :
      pyStrip (pyStripHashSpace (String.mk ('#' :: ' ' :: (c.data ++ ['\n'])))) = c := by
    have hq : stripWhile (fun ch => ch = '#' || ch = ' ') ('#' :: ' ' :: (c.data ++ ['\n'])) =
        c.data ++ ['\n'] := by
      unfold stripWhile
      rw [List.dropWhile_cons, if_pos (by decide), List.dropWhile_cons, if_pos (by decide)]
      rw [dropWhile_eq_self_of_head _ (c.data ++ ['\n'])
        (by
          intro z hz
          rw [hy] at hz
          simp only [List.cons_append, List.head?_cons, Option.some.injEq] at hz
          subst hz
          obtain ⟨hsp0, hhash0⟩ := hch y (by rw [hy]; rfl)
          simp [isPySpace_ne_space hsp0, hhash0])]
      rw [dropWhile_eq_self_of_head _ (c.data ++ ['\n']).reverse
        (by
          intro z hz
          rw [List.head?_reverse, getLast?_append_right c.data ['\n'] (by simp)] at hz
          simp only [List.getLast?_singleton] at hz
          cases hz
          decide)]
      exact List.reverse_reverse _
    show String.mk (stripWhile isPySpace
      (stripWhile (fun ch => ch = '#' || ch = ' ') ('#' :: ' ' :: (c.data ++ ['\n'])))) = c
    rw [hq]
    rw [stripWhile_body_newline isPySpace (by decide) c.data
      (fun z hz => (hch z hz).1) (fun z hz => hcl z hz)]
  unfold parseOutputLine
  rw [if_neg hstrip, if_neg hhash2, hsplit]
  show dictInsert d (pyStrip (String.mk e.data))
    (pyStrip (pyStripHashSpace (String.mk ('#' :: ' ' :: (c.data ++ ['\n']))))) = _
  rw [hentry, hcomment]

theorem linesAux_append (l : List Char) (hnl : '\n' ∉ l) :
    ∀ (rest acc : List Char),
      linesAux (l ++ '\n' :: rest) acc = (acc.reverse ++ l ++ ['\n']) :: linesAux rest [] := by
  induction l with
  | nil => intro rest acc; simp [linesAux]
  | cons ch tl ih =>
    intro rest acc
    have hch : ¬ (ch = '\n') := fun h => hnl (h ▸ List.mem_cons_self ch tl)
    show linesAux (ch :: (tl ++ '\n' :: rest)) acc = _
    rw [linesAux, if_neg hch, ih (fun h => hnl (List.mem_cons_of_mem ch h)) rest (ch :: acc)]
    simp

/-- The body (the part before the final newline) of a rendered line, for
an entry satisfying the round-trip conditions, contains no newline. -/
theorem renderLine_split (maxLen : Int) (e c : String)
    (hge : GoodEntryKey e) (hgc : GoodComment maxLen c) :
    ∃ body, (renderLine maxLen e c).data = body ++ ['\n'] ∧ '\n' ∉ body := by
  obtain ⟨hne, hsp, hhash⟩ := hge
  have hnle : '\n' ∉ e.data := by
    intro hmem
    have := hsp '\n' hmem
    simp [isPySpace] at this
  rcases hgc with rfl | ⟨hcd, hcn, hch, hcl, hlen⟩
  · exact ⟨e.data, renderLine_empty_data maxLen e, hnle⟩
  · have hcne : c ≠ "" := fun h0 => hcd (congrArg String.data h0)
    refine ⟨e.data ++ ' ' :: '#' :: ' ' :: c.data, ?_, ?_⟩
    · rw [renderLine_comment_data maxLen e c hcne hlen]
      simp
    · intro hmem
      rcases List.mem_append.mp hmem with hmem | hmem
      · exact hnle hmem
      · simp only [List.mem_cons] at hmem
        rcases hmem with h1 | h1 | h1 | h1
        · exact absurd h1 (by decide)
        · exact absurd h1 (by decide)
        · exact absurd h1 (by decide)
        · exact hcn h1

theorem pyLines_renderOutput (maxLen : Int) :
    ∀ entries : List (String × String),
      (∀ kv ∈ entries, GoodEntryKey kv.1 ∧ GoodComment maxLen kv.2) →
      pyLines (renderOutput maxLen entries) =
        entries.map (fun kv => renderLine maxLen kv.1 kv.2) := by
  intro entries
  induction entries with
  | nil => intro _; rfl
  | cons kv tl ih =>
    intro hgood
    obtain ⟨e, c⟩ := kv
    obtain ⟨hge, hgc⟩ := hgood (e, c) (List.mem_cons_self _ _)
    obtain ⟨body, hbody, hnl⟩ := renderLine_split maxLen e c hge hgc
    show pyLines (renderLine maxLen e c ++ renderOutput maxLen tl) = _
    unfold pyLines
    rw [show (renderLine maxLen e c ++ renderOutput maxLen tl).toList =
        body ++ '\n' :: (renderOutput maxLen tl).toList by
      rw [show (renderLine maxLen e c ++ renderOutput maxLen tl).toList =
          (renderLine maxLen e c).data ++ (renderOutput maxLen tl).data from
        String.data_append _ _]
      rw [hbody]
      simp]
    rw [linesAux_append body hnl]
    have ih2 := ih (fun kv hkv => hgood kv (List.mem_cons_of_mem _ hkv))
    unfold pyLines at ih2
    rw [List.map_cons]
    simp only [List.map_cons, List.reverse_nil, List.nil_append]
    refine congrArg₂ List.cons ?_ ih2
    show String.mk (body ++ ['\n']) = renderLine maxLen e c
    rw [← hbody]

theorem load_fold (maxLen : Int) :
    ∀ (entries d : List (String × String)),
      (entries.map (fun kv => kv.1)).Nodup →
      (∀ kv ∈ entries, GoodEntryKey kv.1 ∧ GoodComment maxLen kv.2) →
      (∀ kv ∈ entries, dictGet d kv.1 = none) →
      ((entries.map (fun kv => renderLine maxLen kv.1 kv.2)).foldl parseOutputLine d) =
        d ++ entries := by
  intro entries
  induction entries with
  | nil => intro d _ _ _; simp
  | cons kv tl ih =>
    intro d hnodup hgood hfresh
    obtain ⟨e, c⟩ := kv
    obtain ⟨hge, hgc⟩ := hgood (e, c) (List.mem_cons_self _ _)
    have hline : parseOutputLine d (renderLine maxLen e c) = dictInsert d e c := by
      rcases hgc with rfl | ⟨hcd, hcn, hch, hcl, hlen⟩
      · rw [show renderLine maxLen e "" = String.mk (e.data ++ ['\n']) by
          conv_lhs => rw [show renderLine maxLen e "" =
            String.mk (renderLine maxLen e "").data from rfl]
          rw [renderLine_empty_data]]
        exact parseOutputLine_entry_only d e hge
      · have hcne : c ≠ "" := fun h0 => hcd (congrArg String.data h0)
        rw [show renderLine maxLen e c =
            String.mk (e.data ++ ' ' :: '#' :: ' ' :: (c.data ++ ['\n'])) by
          conv_lhs => rw [show renderLine maxLen e c =
            String.mk (renderLine maxLen e c).data from rfl]
          rw [renderLine_comment_data maxLen e c hcne hlen]]
        exact parseOutputLine_with_comment d e c hge hcd hcn hch hcl
    have hd : dictGet d e = none := hfresh (e, c) (List.mem_cons_self _ _)
    have hnotin : e ∉ tl.map (fun kv => kv.1) := by
      have := hnodup
      simp only [List.map_cons, List.nodup_cons] at this
      exact this.1
    rw [List.map_cons, List.foldl_cons, hline, dictInsert_eq_append d e c hd]
    rw [ih (d ++ [(e, c)])
      (by
        have := hnodup
        simp only [List.map_cons, List.nodup_cons] at this
        exact this.2)
      (fun kv hkv => hgood kv (List.mem_cons_of_mem _ hkv))
      (by
        intro kv hkv
        rw [dictGet_append_right d [(e, c)] kv.1 (hfresh kv (List.mem_cons_of_mem _ hkv))]
        have hkne : ¬ (e = kv.1) := by
          intro h0
          exact hnotin (h0 ▸ List.mem_map_of_mem (fun kv => kv.1) hkv)
        simp [dictGet, hkne])]
    simp

/-- C8 counterexample.  The claim states that any mapping whose comments
fit the truncation length round-trips through write and parse up to
formatting whitespace.  A comment beginning with a hash does not: the
parser strips leading hash characters, so ("1.2.3.4", "#a") comes back as
("1.2.3.4", "a") - a change that is not whitespace. -/
theorem spec_c8_counterexample :
    (write_to_output_file [("1.2.3.4", "#a")] "" ⟨10, 255, 1000⟩).1 = true ∧
    load_existing_output_file_entries
        (write_to_output_file [("1.2.3.4", "#a")] "" ⟨10, 255, 1000⟩).2 =
      [("1.2.3.4", "a")] ∧
    [("1.2.3.4", "a")] ≠ [("1.2.3.4", "#a")] := by
  decide

/-- C8 as amended.  For a mapping within both caps whose keys are
nonempty, contain no whitespace and do not begin with a hash, and whose
comments are within the truncation length, contain no newline, do not
begin with a hash or whitespace and do not end in whitespace, writing with
`write_to_output_file` succeeds and parsing the written text with
`load_existing_output_file_entries` recovers exactly the same mapping. -/
theorem spec_c8 (entries : List (String × String)) (prev : String) (config : OutputConfig)
    (hkeys : (entries.map (fun kv => kv.1)).Nodup)
    (hgood : ∀ kv ∈ entries,
      GoodEntryKey kv.1 ∧ GoodComment config.fg_max_comment_length kv.2)
    (hcount : entries.length ≤ config.fg_max_entries)
    (hsize : (renderOutput config.fg_max_comment_length entries).utf8ByteSize ≤
      config.fg_max_size_bytes) :
    write_to_output_file entries prev config =
      (true, renderOutput config.fg_max_comment_length entries) ∧
    load_existing_output_file_entries
      (renderOutput config.fg_max_comment_length entries) = entries := by
  constructor
  · simp [write_to_output_file, Nat.not_lt.mpr hcount, Nat.not_lt.mpr hsize]
  · unfold load_existing_output_file_entries
    rw [pyLines_renderOutput config.fg_max_comment_length entries hgood]
    rw [load_fold config.fg_max_comment_length entries [] hkeys hgood (by simp [dictGet])]
    simp

/-- C8 witness: `spec_c8` at a concrete two-entry mapping with one real
comment and one empty comment. -/
theorem spec_c8_witness :
    write_to_output_file [("1.2.3.0/24", "US | CA | Foo"), ("4.5.6.7", "")] "old" ⟨10, 255, 1000⟩ =
      (true, "1.2.3.0/24 # US | CA | Foo\n4.5.6.7\n") ∧
    load_existing_output_file_entries "1.2.3.0/24 # US | CA | Foo\n4.5.6.7\n" =
      [("1.2.3.0/24", "US | CA | Foo"), ("4.5.6.7", "")] := by
  have h := spec_c8 [("1.2.3.0/24", "US | CA | Foo"), ("4.5.6.7", "")] "old" ⟨10, 255, 1000⟩
    (by decide)
    (by
      intro kv hkv
      rcases List.mem_cons.mp hkv with rfl | hkv
      · exact ⟨⟨by decide, by decide, by decide⟩,
          Or.inr ⟨by decide, by decide, by decide, by decide, by decide⟩⟩
      · rcases List.mem_cons.mp hkv with rfl | hkv
        · exact ⟨⟨by decide, by decide, by decide⟩, Or.inl rfl⟩
        · cases hkv)
    (by decide) (by decide)
  simpa using h

end Blocklist
